import Mathlib

/-!
# MegaSena: the game selection engine of `js/script.js`

A shallow embedding of the state object of `js/script.js` and of the functions
that read or change it.  The DOM functions (`render`, `renderBoard`,
`renderButtons`, `renderSavedGames`, `styleButton`) do not touch `state`, and
every function that calls `render()` calls it after its last assignment to
`state`, so the call is left out of the bodies below.

`writeToLocalStorage` does not touch `state` either, but it is not guarded
(`readLocalStorage` is) and `saveGame` calls it between the `push` and
`newGame()`: how the write ends is an argument of the functions that call it.

Numbers are the integers the engine works with (`Int`); a JavaScript string is
the list of its characters.
-/

namespace MegaSena

/-- The object `state` of the script: the board, the game being picked and the
saved games. -/
structure State where
  board : List Int
  currentGame : List Int
  savedGames : List (List Int)
  deriving DecidableEq

/-- The value of `state` when the script is loaded: three empty arrays. -/
def initialState : State := ⟨[], [], []⟩

/-- `createBoard`: the board becomes the numbers 1 to 60. -/
def createBoard (st : State) : State :=
  { st with board := (List.range 60).map (fun i => (i : Int) + 1) }

/-- `isNumberInGame`: `state.currentGame.includes(numberToCheck)`. -/
def isNumberInGame (st : State) (numberToCheck : Int) : Bool :=
  decide (numberToCheck ∈ st.currentGame)

/-- `isGameComplete`: `state.currentGame.length === 6`. -/
def isGameComplete (st : State) : Bool :=
  decide (st.currentGame.length = 6)

/-- `resetGame`: `state.currentGame = []`. -/
def resetGame (st : State) : State :=
  { st with currentGame := [] }

/-- `newGame`: `resetGame()` followed by `render()`. -/
def newGame (st : State) : State :=
  resetGame st

/-- `addNumberToGame`: two guarded early returns, then a `push`. -/
def addNumberToGame (st : State) (numberToAdd : Int) : State :=
  if numberToAdd < 1 ∨ numberToAdd > 60 ∨ isNumberInGame st numberToAdd = true then st
  else if st.currentGame.length ≥ 6 then st
  else { st with currentGame := st.currentGame ++ [numberToAdd] }

/-- `removeNumberFromGame`: a guarded early return, then a `filter`. -/
def removeNumberFromGame (st : State) (numberToRemove : Int) : State :=
  if numberToRemove < 1 ∨ numberToRemove > 60 then st
  else { st with currentGame := st.currentGame.filter (fun n => decide (n ≠ numberToRemove)) }

/-- `handleNumberClick` with `value` the number read from the clicked item. -/
def handleNumberClick (st : State) (value : Int) : State :=
  if isNumberInGame st value = true then removeNumberFromGame st value
  else addNumberToGame st value

/-- The decimal digits of a positive natural number, most significant first;
`0` is written `"0"`. -/
def natToString (n : Nat) : List Char :=
  if n = 0 then ['0'] else ((Nat.digits 10 n).reverse).map Nat.digitChar

/-- The string JavaScript gives an integer of magnitude below `2^53`: its
decimal digits, after a minus sign when it is negative. -/
def numberToString (n : Int) : List Char :=
  if n < 0 then '-' :: natToString n.natAbs else natToString n.toNat

/-- The elements of an array joined by commas, as `JSON.stringify` writes
them between the brackets. -/
def joinComma : List (List Char) → List Char
  | [] => []
  | [a] => a
  | a :: b :: rest => a ++ ',' :: joinComma (b :: rest)

/-- `JSON.stringify` on an array of integers: `[1,2,3]`. -/
def JSON.stringify (game : List Int) : List Char :=
  '[' :: (joinComma (game.map numberToString) ++ [']'])

/-- How a call of `writeToLocalStorage` ends.  The function has neither the
guard of `readLocalStorage` nor a `try`: it throws when `window.localStorage`
is absent or when `setItem` throws, and the exception then leaves the calling
function at that statement. -/
inductive WriteResult where
  | returned
  | threw
  deriving DecidableEq

/-- How a call of `saveGame` ends: the `console.error` return, the `alert`
return, the save, or the exception of `writeToLocalStorage()`. -/
inductive SaveOutcome where
  | incomplete
  | duplicate
  | saved
  | writeThrew
  deriving DecidableEq

/-- The array `[...state.currentGame].sort((a, b) => a - b)`. -/
def sortedGame (st : State) : List Int :=
  st.currentGame.insertionSort (fun a b => a ≤ b)

/-- The flag `gameExists` of `saveGame`: some saved game has the same JSON
string as the sorted current game. -/
def gameExists (st : State) : Bool :=
  st.savedGames.any
    (fun game => decide (JSON.stringify game = JSON.stringify (sortedGame st)))

/-- `saveGame`: the state after the call, with the way the call ended; `write`
is how its call of `writeToLocalStorage()` ends.  The sorted game is pushed
before the write, `newGame()` runs only after the write has returned. -/
def saveGame (st : State) (write : WriteResult) : SaveOutcome × State :=
  if isGameComplete st = false then (SaveOutcome.incomplete, st)
  else if gameExists st = true then (SaveOutcome.duplicate, st)
  else
    match write with
    | WriteResult.returned =>
      (SaveOutcome.saved, newGame { st with savedGames := st.savedGames ++ [sortedGame st] })
    | WriteResult.threw =>
      (SaveOutcome.writeThrew, { st with savedGames := st.savedGames ++ [sortedGame st] })

/-- The click handler of the button made by `createClearSavedGamesButton`;
`confirmed` is the answer of `confirm(...)` and `write` is how the call of
`writeToLocalStorage()` ends, which comes after `state.savedGames = []`. -/
def clearSavedGames (st : State) (confirmed : Bool) (write : WriteResult) :
    WriteResult × State :=
  if confirmed = true then (write, { st with savedGames := [] })
  else (WriteResult.returned, st)

/-- `Math.ceil` on an exact rational. -/
def Math.ceil (x : ℚ) : Int :=
  Int.ceil x

/-- The `while` loop of `randomGame`.  `random i` is the value returned by the
`i`-th call of `Math.random()`; `fuel` bounds the number of iterations, and the
result is `none` when the loop is still running after `fuel` iterations. -/
def randomLoop (random : Nat → ℚ) : Nat → Nat → State → Option State
  | 0, _, st => if isGameComplete st = true then some st else none
  | fuel + 1, i, st =>
    if isGameComplete st = true then some st
    else randomLoop random fuel (i + 1) (addNumberToGame st (Math.ceil (random i * 60)))

/-- `randomGame`: `resetGame()`, then the loop. -/
def randomGame (random : Nat → ℚ) (fuel : Nat) (st : State) : Option State :=
  randomLoop random fuel 0 (resetGame st)

/-- The operations of the engine that a user gesture or a caller can start. -/
inductive Op where
  | addNumber (n : Int)
  | removeNumber (n : Int)
  | numberClick (n : Int)
  | newGame
  | saveGame (write : WriteResult)
  | clearSavedGames (confirmed : Bool) (write : WriteResult)

/-- One operation applied to the state. -/
def Op.apply (st : State) : Op → State
  | Op.addNumber n => addNumberToGame st n
  | Op.removeNumber n => removeNumberFromGame st n
  | Op.numberClick n => handleNumberClick st n
  | Op.newGame => MegaSena.newGame st
  | Op.saveGame w => (MegaSena.saveGame st w).2
  | Op.clearSavedGames c w => (MegaSena.clearSavedGames st c w).2

/-- A finite sequence of operations applied from left to right. -/
def runOps (st : State) (ops : List Op) : State :=
  ops.foldl Op.apply st

/-- The two candidate operations of claim C1: add or remove a number. -/
inductive SelOp where
  | add (n : Int)
  | remove (n : Int)

/-- One add or remove applied to the state. -/
def SelOp.apply (st : State) : SelOp → State
  | SelOp.add n => addNumberToGame st n
  | SelOp.remove n => removeNumberFromGame st n

/-- A finite sequence of add and remove calls applied from left to right. -/
def runSel (st : State) (ops : List SelOp) : State :=
  ops.foldl SelOp.apply st

/-! ## Predicates and auxiliary functions of the proofs -/

/-- The invariant of `state.currentGame`: at most six numbers, none twice, each
between 1 and 60. -/
def SelectionOk (l : List Int) : Prop :=
  l.length ≤ 6 ∧ l.Nodup ∧ ∀ x ∈ l, 1 ≤ x ∧ x ≤ 60

/-- The digits that `natToString` writes, most significant first. -/
def decimalDigits (n : Nat) : List Nat :=
  if n = 0 then [0] else (Nat.digits 10 n).reverse

/-- What every saved game is: six numbers, none twice, each between 1 and 60,
in strictly ascending order. -/
def GameOk (g : List Int) : Prop :=
  g.length = 6 ∧ g.Nodup ∧ (∀ x ∈ g, 1 ≤ x ∧ x ≤ 60) ∧ g.Sorted (fun a b => a < b)

/-- The invariant of `state.savedGames`: every entry is a well-formed game and
no entry occurs twice. -/
def SavedOk (saved : List (List Int)) : Prop :=
  (∀ g ∈ saved, GameOk g) ∧ saved.Nodup

/-- The current game after one click on `v`, from the current game before. -/
def toggled (s : List Int) (v : Int) : List Int :=
  if v ∈ s then
    if v < 1 ∨ 60 < v then s else s.filter (fun n => decide (n ≠ v))
  else if v < 1 ∨ 60 < v ∨ 6 ≤ s.length then s
  else s ++ [v]

/-- The numbers drawn by the calls `i`, `i + 1`, ..., `i + n - 1` of
`Math.random()`. -/
def drawn (random : Nat → ℚ) : Nat → Nat → List Int
  | _, 0 => []
  | i, n + 1 => Math.ceil (random i * 60) :: drawn random (i + 1) n

/-- The numbers of a list passed to `addNumberToGame` one after the other. -/
def addAll (st : State) (l : List Int) : State :=
  l.foldl addNumberToGame st

/-! ## The invariant of the current game -/

lemma addNumberToGame_currentGame (st : State) (v : Int) :
    (addNumberToGame st v).currentGame =
      if v < 1 ∨ 60 < v ∨ v ∈ st.currentGame ∨ 6 ≤ st.currentGame.length then st.currentGame
      else st.currentGame ++ [v] := by
  unfold addNumberToGame isNumberInGame
  by_cases h1 : v < 1
  · simp [h1]
  by_cases h2 : 60 < v
  · simp [h2]
  by_cases h3 : v ∈ st.currentGame
  · simp [h3]
  by_cases h4 : 6 ≤ st.currentGame.length
  · simp [h1, h2, h3, h4]
  · simp [h1, h2, h3, h4]

lemma removeNumberFromGame_currentGame (st : State) (v : Int) :
    (removeNumberFromGame st v).currentGame =
      if v < 1 ∨ 60 < v then st.currentGame
      else st.currentGame.filter (fun n => decide (n ≠ v)) := by
  unfold removeNumberFromGame
  by_cases h : v < 1 ∨ 60 < v
  · simp [h]
  · have h' : ¬ (v < 1 ∨ v > 60) := h
    simp [h, h']

lemma addNumberToGame_savedGames (st : State) (v : Int) :
    (addNumberToGame st v).savedGames = st.savedGames := by
  unfold addNumberToGame
  split_ifs <;> rfl

lemma removeNumberFromGame_savedGames (st : State) (v : Int) :
    (removeNumberFromGame st v).savedGames = st.savedGames := by
  unfold removeNumberFromGame
  split_ifs <;> rfl

lemma handleNumberClick_savedGames (st : State) (v : Int) :
    (handleNumberClick st v).savedGames = st.savedGames := by
  unfold handleNumberClick
  split_ifs
  · exact removeNumberFromGame_savedGames st v
  · exact addNumberToGame_savedGames st v

lemma SelectionOk_nil : SelectionOk [] := by
  refine ⟨by simp, List.nodup_nil, ?_⟩
  intro x hx
  simp at hx

lemma SelectionOk_add (st : State) (v : Int) (h : SelectionOk st.currentGame) :
    SelectionOk (addNumberToGame st v).currentGame := by
  rw [addNumberToGame_currentGame]
  split_ifs with hc
  · exact h
  · obtain ⟨hlen, hnd, hrange⟩ := h
    simp only [not_or, not_lt, not_le] at hc
    obtain ⟨h1, h2, h3, h4⟩ := hc
    refine ⟨?_, ?_, ?_⟩
    · simp only [List.length_append, List.length_singleton]
      omega
    · rw [List.nodup_append]
      refine ⟨hnd, List.nodup_singleton v, ?_⟩
      intro a ha hb
      simp only [List.mem_singleton] at hb
      exact h3 (hb ▸ ha)
    · intro x hx
      rw [List.mem_append, List.mem_singleton] at hx
      rcases hx with hx | hx
      · exact hrange x hx
      · subst hx
        exact ⟨h1, h2⟩

lemma SelectionOk_remove (st : State) (v : Int) (h : SelectionOk st.currentGame) :
    SelectionOk (removeNumberFromGame st v).currentGame := by
  rw [removeNumberFromGame_currentGame]
  split_ifs with hc
  · exact h
  · obtain ⟨hlen, hnd, hrange⟩ := h
    refine ⟨?_, ?_, ?_⟩
    · exact le_trans (List.length_filter_le _ _) hlen
    · exact hnd.filter _
    · intro x hx
      exact hrange x (List.mem_of_mem_filter hx)

lemma SelectionOk_click (st : State) (v : Int) (h : SelectionOk st.currentGame) :
    SelectionOk (handleNumberClick st v).currentGame := by
  unfold handleNumberClick
  split_ifs
  · exact SelectionOk_remove st v h
  · exact SelectionOk_add st v h

lemma SelectionOk_runSel (ops : List SelOp) :
    ∀ st : State, SelectionOk st.currentGame → SelectionOk (runSel st ops).currentGame := by
  induction ops with
  | nil => intro st h; exact h
  | cons op rest ih =>
    intro st h
    have hstep : SelectionOk (SelOp.apply st op).currentGame := by
      cases op with
      | add n => exact SelectionOk_add st n h
      | remove n => exact SelectionOk_remove st n h
    exact ih _ hstep

/-! ## `JSON.stringify` tells arrays of integers apart -/

lemma digitChar_injOn : ∀ a : Fin 10, ∀ b : Fin 10,
    Nat.digitChar a.1 = Nat.digitChar b.1 → a = b := by
  decide

lemma digitChar_ne_sep : ∀ a : Fin 10, Nat.digitChar a.1 ≠ ',' ∧ Nat.digitChar a.1 ≠ '-' := by
  decide

lemma natToString_eq (n : Nat) : natToString n = (decimalDigits n).map Nat.digitChar := by
  unfold natToString decimalDigits
  split_ifs <;> rfl

lemma decimalDigits_lt (n d : Nat) (h : d ∈ decimalDigits n) : d < 10 := by
  unfold decimalDigits at h
  split_ifs at h
  · simp only [List.mem_singleton] at h
    omega
  · exact Nat.digits_lt_base (by norm_num) (List.mem_reverse.mp h)

lemma decimalDigits_ne_nil (n : Nat) : decimalDigits n ≠ [] := by
  unfold decimalDigits
  split_ifs with h
  · simp
  · intro hnil
    rw [List.reverse_eq_nil_iff] at hnil
    exact h (Nat.digits_eq_nil_iff_eq_zero.mp hnil)

lemma decimalDigits_value (n : Nat) : Nat.ofDigits 10 (decimalDigits n).reverse = n := by
  unfold decimalDigits
  split_ifs with h
  · subst h
    simp [Nat.ofDigits]
  · rw [List.reverse_reverse, Nat.ofDigits_digits]

lemma decimalDigits_injective (a b : Nat) (h : decimalDigits a = decimalDigits b) : a = b := by
  rw [← decimalDigits_value a, ← decimalDigits_value b, h]

lemma map_digitChar_inj : ∀ l₁ l₂ : List Nat, (∀ d ∈ l₁, d < 10) → (∀ d ∈ l₂, d < 10) →
    l₁.map Nat.digitChar = l₂.map Nat.digitChar → l₁ = l₂ := by
  intro l₁
  induction l₁ with
  | nil =>
    intro l₂ _ _ h
    cases l₂ with
    | nil => rfl
    | cons b t => simp at h
  | cons a t ih =>
    intro l₂ h₁ h₂ h
    cases l₂ with
    | nil => simp at h
    | cons b t₂ =>
      simp only [List.map_cons, List.cons.injEq] at h
      have ha : a < 10 := h₁ a (List.mem_cons_self a t)
      have hb : b < 10 := h₂ b (List.mem_cons_self b t₂)
      have hab : (⟨a, ha⟩ : Fin 10) = ⟨b, hb⟩ := digitChar_injOn ⟨a, ha⟩ ⟨b, hb⟩ h.1
      have hab' : a = b := congrArg Fin.val hab
      have ht : t = t₂ :=
        ih t₂ (fun d hd => h₁ d (List.mem_cons_of_mem a hd))
          (fun d hd => h₂ d (List.mem_cons_of_mem b hd)) h.2
      rw [hab', ht]

lemma natToString_injective (a b : Nat) (h : natToString a = natToString b) : a = b := by
  rw [natToString_eq, natToString_eq] at h
  exact decimalDigits_injective a b
    (map_digitChar_inj _ _ (decimalDigits_lt a) (decimalDigits_lt b) h)

lemma natToString_ne_nil (n : Nat) : natToString n ≠ [] := by
  rw [natToString_eq]
  intro h
  exact decimalDigits_ne_nil n (List.map_eq_nil_iff.mp h)

lemma natToString_chars (n : Nat) (c : Char) (h : c ∈ natToString n) : c ≠ ',' ∧ c ≠ '-' := by
  rw [natToString_eq, List.mem_map] at h
  obtain ⟨d, hd, rfl⟩ := h
  exact digitChar_ne_sep ⟨d, decimalDigits_lt n d hd⟩

lemma numberToString_ne_nil (n : Int) : numberToString n ≠ [] := by
  unfold numberToString
  split_ifs
  · simp
  · exact natToString_ne_nil _

lemma numberToString_no_comma (n : Int) : ',' ∉ numberToString n := by
  unfold numberToString
  split_ifs
  · intro h
    rw [List.mem_cons] at h
    rcases h with h | h
    · exact absurd h (by decide)
    · exact (natToString_chars _ _ h).1 rfl
  · intro h
    exact (natToString_chars _ _ h).1 rfl

lemma numberToString_injective (a b : Int) (h : numberToString a = numberToString b) :
    a = b := by
  unfold numberToString at h
  have hminus : ∀ (n : Nat) (t : List Char), '-' :: t ≠ natToString n := by
    intro n t heq
    have hmem : '-' ∈ natToString n := heq ▸ List.mem_cons_self '-' t
    exact (natToString_chars n '-' hmem).2 rfl
  by_cases ha : a < 0 <;> by_cases hb : b < 0
  · rw [if_pos ha, if_pos hb] at h
    have := natToString_injective _ _ (List.cons.inj h).2
    omega
  · rw [if_pos ha, if_neg hb] at h
    exact absurd h (hminus _ _)
  · rw [if_neg ha, if_pos hb] at h
    exact absurd h.symm (hminus _ _)
  · rw [if_neg ha, if_neg hb] at h
    have := natToString_injective _ _ h
    omega

lemma append_comma_inj : ∀ (a b x y : List Char), ',' ∉ a → ',' ∉ b →
    a ++ ',' :: x = b ++ ',' :: y → a = b ∧ x = y := by
  intro a
  induction a with
  | nil =>
    intro b x y _ hb h
    cases b with
    | nil => simpa using h
    | cons c t =>
      simp only [List.nil_append, List.cons_append, List.cons.injEq] at h
      exact absurd (h.1 ▸ List.mem_cons_self c t) hb
  | cons c t ih =>
    intro b x y ha hb h
    cases b with
    | nil =>
      simp only [List.nil_append, List.cons_append, List.cons.injEq] at h
      exact absurd (h.1 ▸ List.mem_cons_self c t) ha
    | cons d u =>
      simp only [List.cons_append, List.cons.injEq] at h
      obtain ⟨hcd, hrest⟩ := h
      have := ih u x y (fun hm => ha (List.mem_cons_of_mem c hm))
        (fun hm => hb (List.mem_cons_of_mem d hm)) hrest
      exact ⟨by rw [hcd, this.1], this.2⟩

lemma joinComma_inj : ∀ l₁ l₂ : List (List Char),
    (∀ t ∈ l₁, t ≠ [] ∧ ',' ∉ t) → (∀ t ∈ l₂, t ≠ [] ∧ ',' ∉ t) →
    joinComma l₁ = joinComma l₂ → l₁ = l₂ := by
  intro l₁
  induction l₁ with
  | nil =>
    intro l₂ _ h₂ h
    cases l₂ with
    | nil => rfl
    | cons b t₂ =>
      have hb := h₂ b (List.mem_cons_self b t₂)
      cases t₂ with
      | nil => exact absurd h.symm hb.1
      | cons c r => simp [joinComma] at h
  | cons a t ih =>
    intro l₂ h₁ h₂ h
    have ha := h₁ a (List.mem_cons_self a t)
    cases l₂ with
    | nil =>
      cases t with
      | nil => exact absurd h ha.1
      | cons c r => simp [joinComma] at h
    | cons b t₂ =>
      have hb := h₂ b (List.mem_cons_self b t₂)
      cases t with
      | nil =>
        cases t₂ with
        | nil =>
          simp only [joinComma] at h
          rw [h]
        | cons c r =>
          simp only [joinComma] at h
          exact absurd (h ▸ (List.mem_append_right b (List.mem_cons_self ',' _))) ha.2
      | cons a' r =>
        cases t₂ with
        | nil =>
          simp only [joinComma] at h
          exact absurd (h ▸ (List.mem_append_right a (List.mem_cons_self ',' _))) hb.2
        | cons b' r' =>
          simp only [joinComma] at h
          obtain ⟨hab, hrest⟩ := append_comma_inj a b _ _ ha.2 hb.2 h
          have := ih (b' :: r') (fun x hx => h₁ x (List.mem_cons_of_mem a hx))
            (fun x hx => h₂ x (List.mem_cons_of_mem b hx)) hrest
          rw [hab, this]

/-- Two arrays of integers have the same JSON string exactly when they are
equal element by element. -/
lemma stringify_eq_iff (g₁ g₂ : List Int) :
    JSON.stringify g₁ = JSON.stringify g₂ ↔ g₁ = g₂ := by
  constructor
  · intro h
    unfold JSON.stringify at h
    have h1 := List.append_cancel_right (List.cons.inj h).2
    have htok : ∀ g : List Int, ∀ t ∈ g.map numberToString, t ≠ [] ∧ ',' ∉ t := by
      intro g t ht
      rw [List.mem_map] at ht
      obtain ⟨n, _, rfl⟩ := ht
      exact ⟨numberToString_ne_nil n, numberToString_no_comma n⟩
    have h2 := joinComma_inj _ _ (htok g₁) (htok g₂) h1
    exact (List.map_injective_iff.mpr
      (fun a b hab => numberToString_injective a b hab)) h2
  · intro h
    rw [h]

lemma gameExists_iff (st : State) :
    gameExists st = true ↔ sortedGame st ∈ st.savedGames := by
  unfold gameExists
  rw [List.any_eq_true]
  constructor
  · rintro ⟨g, hg, heq⟩
    have := (stringify_eq_iff g (sortedGame st)).mp (of_decide_eq_true heq)
    exact this ▸ hg
  · intro h
    exact ⟨sortedGame st, h, decide_eq_true rfl⟩

/-! ## The sorted copy and the invariant of the saved games -/

lemma sortedGame_perm (st : State) : (sortedGame st).Perm st.currentGame :=
  List.perm_insertionSort _ _

lemma sortedGame_sorted (st : State) : (sortedGame st).Sorted (fun a b => a ≤ b) :=
  List.sorted_insertionSort _ _

lemma sortedGame_congr (st₁ st₂ : State) (h : st₁.currentGame.Perm st₂.currentGame) :
    sortedGame st₁ = sortedGame st₂ :=
  List.eq_of_perm_of_sorted
    (((sortedGame_perm st₁).trans h).trans (sortedGame_perm st₂).symm)
    (sortedGame_sorted st₁) (sortedGame_sorted st₂)

lemma saveGame_cases (st : State) (w : WriteResult) :
    saveGame st w =
      if st.currentGame.length ≠ 6 then (SaveOutcome.incomplete, st)
      else if sortedGame st ∈ st.savedGames then (SaveOutcome.duplicate, st)
      else if w = WriteResult.returned then
        (SaveOutcome.saved,
          { st with currentGame := [], savedGames := st.savedGames ++ [sortedGame st] })
      else
        (SaveOutcome.writeThrew,
          { st with savedGames := st.savedGames ++ [sortedGame st] }) := by
  unfold saveGame isGameComplete
  by_cases hlen : st.currentGame.length = 6
  · by_cases hex : sortedGame st ∈ st.savedGames
    · have hge : gameExists st = true := (gameExists_iff st).mpr hex
      simp [hlen, hex, hge]
    · have hge : ¬ gameExists st = true := fun h => hex ((gameExists_iff st).mp h)
      cases w <;> simp [hlen, hex, hge, newGame, resetGame]
  · simp [hlen]

lemma GameOk_sortedGame (st : State) (hsel : SelectionOk st.currentGame)
    (hlen : st.currentGame.length = 6) : GameOk (sortedGame st) := by
  obtain ⟨_, hnd, hrange⟩ := hsel
  have hperm := sortedGame_perm st
  have hnd' : (sortedGame st).Nodup := hperm.nodup_iff.mpr hnd
  refine ⟨hperm.length_eq.trans hlen, hnd', ?_, (sortedGame_sorted st).lt_of_le hnd'⟩
  intro x hx
  exact hrange x (hperm.subset hx)

lemma invariant_saveGame (st : State) (w : WriteResult)
    (hsel : SelectionOk st.currentGame) (hsaved : SavedOk st.savedGames) :
    SelectionOk (saveGame st w).2.currentGame ∧ SavedOk (saveGame st w).2.savedGames := by
  have happend : st.currentGame.length = 6 → sortedGame st ∉ st.savedGames →
      SavedOk (st.savedGames ++ [sortedGame st]) := by
    intro hlen hex
    refine ⟨?_, ?_⟩
    · intro g hg
      rw [List.mem_append, List.mem_singleton] at hg
      rcases hg with hg | hg
      · exact hsaved.1 g hg
      · rw [hg]
        exact GameOk_sortedGame st hsel hlen
    · rw [List.nodup_append]
      refine ⟨hsaved.2, List.nodup_singleton _, ?_⟩
      intro a ha hb
      rw [List.mem_singleton] at hb
      exact hex (hb ▸ ha)
  rw [saveGame_cases]
  split_ifs with hlen hex hw
  · exact ⟨hsel, hsaved⟩
  · exact ⟨hsel, hsaved⟩
  · exact ⟨SelectionOk_nil, happend (not_not.mp hlen) hex⟩
  · exact ⟨hsel, happend (not_not.mp hlen) hex⟩

lemma invariant_apply (st : State) (op : Op) (hsel : SelectionOk st.currentGame)
    (hsaved : SavedOk st.savedGames) :
    SelectionOk (Op.apply st op).currentGame ∧ SavedOk (Op.apply st op).savedGames := by
  cases op with
  | addNumber n =>
    exact ⟨SelectionOk_add st n hsel, by
      show SavedOk (addNumberToGame st n).savedGames
      rw [addNumberToGame_savedGames]; exact hsaved⟩
  | removeNumber n =>
    exact ⟨SelectionOk_remove st n hsel, by
      show SavedOk (removeNumberFromGame st n).savedGames
      rw [removeNumberFromGame_savedGames]; exact hsaved⟩
  | numberClick n =>
    exact ⟨SelectionOk_click st n hsel, by
      show SavedOk (handleNumberClick st n).savedGames
      rw [handleNumberClick_savedGames]; exact hsaved⟩
  | newGame => exact ⟨SelectionOk_nil, hsaved⟩
  | saveGame w => exact invariant_saveGame st w hsel hsaved
  | clearSavedGames c w =>
    show SelectionOk (clearSavedGames st c w).2.currentGame ∧
      SavedOk (clearSavedGames st c w).2.savedGames
    unfold clearSavedGames
    split_ifs
    · refine ⟨hsel, ?_, List.nodup_nil⟩
      intro g hg
      simp at hg
    · exact ⟨hsel, hsaved⟩

lemma invariant_runOps (ops : List Op) : ∀ st : State,
    SelectionOk st.currentGame → SavedOk st.savedGames →
    SelectionOk (runOps st ops).currentGame ∧ SavedOk (runOps st ops).savedGames := by
  induction ops with
  | nil => intro st h₁ h₂; exact ⟨h₁, h₂⟩
  | cons op rest ih =>
    intro st h₁ h₂
    obtain ⟨h₁', h₂'⟩ := invariant_apply st op h₁ h₂
    exact ih _ h₁' h₂'

/-! ## One click as a function of the current game -/

lemma handleNumberClick_currentGame (st : State) (v : Int) :
    (handleNumberClick st v).currentGame = toggled st.currentGame v := by
  unfold handleNumberClick toggled isNumberInGame
  by_cases hv : v ∈ st.currentGame
  · simp only [hv, decide_True, if_true]
    exact removeNumberFromGame_currentGame st v
  · have hd : ¬ (decide (v ∈ st.currentGame) = true) := by simpa using hv
    rw [if_neg hd, if_neg hv, addNumberToGame_currentGame]
    by_cases hc : v < 1 ∨ 60 < v ∨ 6 ≤ st.currentGame.length
    · have hc' : v < 1 ∨ 60 < v ∨ v ∈ st.currentGame ∨ 6 ≤ st.currentGame.length := by tauto
      rw [if_pos hc, if_pos hc']
    · have hc' : ¬ (v < 1 ∨ 60 < v ∨ v ∈ st.currentGame ∨ 6 ≤ st.currentGame.length) := by
        tauto
      rw [if_neg hc, if_neg hc']

lemma filter_ne_of_not_mem (s : List Int) (v : Int) (hv : v ∉ s) :
    s.filter (fun n => decide (n ≠ v)) = s := by
  rw [List.filter_eq_self]
  intro a ha
  have : a ≠ v := fun hav => hv (hav ▸ ha)
  simpa using this

lemma not_mem_filter_ne (s : List Int) (v : Int) :
    v ∉ s.filter (fun n => decide (n ≠ v)) := by
  simp [List.mem_filter]

lemma length_filter_ne_lt (s : List Int) (v : Int) (hv : v ∈ s) :
    (s.filter (fun n => decide (n ≠ v))).length < s.length := by
  apply List.length_filter_lt_length_iff_exists.mpr
  exact ⟨v, hv, by simp⟩

lemma toggled_twice_same (s : List Int) (v : Int) (h : v ∉ s ∨ v < 1 ∨ 60 < v) :
    toggled (toggled s v) v = s := by
  by_cases hr : v < 1 ∨ 60 < v
  · have hstep : ∀ t : List Int, toggled t v = t := by
      intro t
      unfold toggled
      have hr' : v < 1 ∨ 60 < v ∨ 6 ≤ t.length := by tauto
      split_ifs <;> rfl
    rw [hstep, hstep]
  · have hv : v ∉ s := by tauto
    by_cases hfull : 6 ≤ s.length
    · have hstep : toggled s v = s := by
        unfold toggled
        have hr' : v < 1 ∨ 60 < v ∨ 6 ≤ s.length := by tauto
        rw [if_neg hv, if_pos hr']
      rw [hstep, hstep]
    · have hstep : toggled s v = s ++ [v] := by
        unfold toggled
        have hr' : ¬ (v < 1 ∨ 60 < v ∨ 6 ≤ s.length) := by tauto
        rw [if_neg hv, if_neg hr']
      rw [hstep]
      unfold toggled
      have hin : v ∈ s ++ [v] := List.mem_append_right _ (List.mem_singleton_self v)
      rw [if_pos hin, if_neg hr, List.filter_append, filter_ne_of_not_mem s v hv]
      simp

lemma toggled_twice_moved (s : List Int) (v : Int) (hlen : s.length ≤ 6) (hv : v ∈ s)
    (h1 : 1 ≤ v) (h60 : v ≤ 60) :
    toggled (toggled s v) v = s.filter (fun n => decide (n ≠ v)) ++ [v] := by
  have hr : ¬ (v < 1 ∨ 60 < v) := by
    intro hc
    rcases hc with hc | hc <;> omega
  have hstep : toggled s v = s.filter (fun n => decide (n ≠ v)) := by
    unfold toggled
    rw [if_pos hv, if_neg hr]
  rw [hstep]
  have hshort := length_filter_ne_lt s v hv
  have hr' : ¬ (v < 1 ∨ 60 < v ∨ 6 ≤ (s.filter (fun n => decide (n ≠ v))).length) := by
    intro hc
    rcases hc with hc | hc | hc <;> omega
  unfold toggled
  rw [if_neg (not_mem_filter_ne s v), if_neg hr']

lemma moved_perm (s : List Int) (v : Int) (hnd : s.Nodup) (hv : v ∈ s) :
    (s.filter (fun n => decide (n ≠ v)) ++ [v]).Perm s := by
  rw [List.perm_iff_count]
  intro x
  rw [List.count_append]
  by_cases hx : x = v
  · subst hx
    rw [List.count_eq_zero_of_not_mem (not_mem_filter_ne s x),
      List.count_eq_one_of_mem hnd hv]
    simp
  · have hcount : (s.filter (fun n => decide (n ≠ v))).count x = s.count x := by
      rw [List.count_filter]
      simpa using hx
    rw [hcount]
    simp [hx]

lemma toggled_twice_perm (s : List Int) (v : Int) (hlen : s.length ≤ 6) (hnd : s.Nodup) :
    (toggled (toggled s v) v).Perm s := by
  by_cases h : v ∉ s ∨ v < 1 ∨ 60 < v
  · rw [toggled_twice_same s v h]
  · simp only [not_or, not_not, not_lt] at h
    rw [toggled_twice_moved s v hlen h.1 h.2.1 h.2.2]
    exact moved_perm s v hnd h.1

lemma click_twice_of_ok (st : State) (v : Int) (hok : SelectionOk st.currentGame) :
    (handleNumberClick (handleNumberClick st v) v).currentGame.Perm st.currentGame ∧
      (handleNumberClick (handleNumberClick st v) v).currentGame.length
        = st.currentGame.length ∧
      (v ∉ st.currentGame →
        (handleNumberClick (handleNumberClick st v) v).currentGame = st.currentGame) ∧
      (v ∈ st.currentGame →
        (handleNumberClick (handleNumberClick st v) v).currentGame
          = st.currentGame.filter (fun n => decide (n ≠ v)) ++ [v]) := by
  obtain ⟨hlen, hnd, hrange⟩ := hok
  rw [handleNumberClick_currentGame, handleNumberClick_currentGame]
  have hperm := toggled_twice_perm st.currentGame v hlen hnd
  exact ⟨hperm, hperm.length_eq, fun h => toggled_twice_same _ v (Or.inl h),
    fun h => toggled_twice_moved _ v hlen h (hrange v h).1 (hrange v h).2⟩

/-! ## The loop of `randomGame` -/

lemma mem_drawn (random : Nat → ℚ) (v : Int) : ∀ (n i : Nat),
    v ∈ drawn random i n ↔ ∃ k, i ≤ k ∧ k < i + n ∧ Math.ceil (random k * 60) = v := by
  intro n
  induction n with
  | zero =>
    intro i
    simp only [drawn, List.not_mem_nil, false_iff]
    rintro ⟨k, h1, h2, _⟩
    omega
  | succ n ih =>
    intro i
    simp only [drawn, List.mem_cons, ih]
    constructor
    · rintro (h | ⟨k, h1, h2, h3⟩)
      · exact ⟨i, le_refl i, by omega, h.symm⟩
      · exact ⟨k, by omega, by omega, h3⟩
    · rintro ⟨k, h1, h2, h3⟩
      by_cases hk : k = i
      · left
        rw [← h3, hk]
      · right
        exact ⟨k, by omega, by omega, h3⟩

lemma addNumberToGame_of_complete (st : State) (v : Int) (h : st.currentGame.length = 6) :
    addNumberToGame st v = st := by
  unfold addNumberToGame
  split_ifs with h1 h2
  · rfl
  · rfl
  · exact absurd (by omega : st.currentGame.length ≥ 6) h2

lemma addAll_of_complete (l : List Int) : ∀ st : State, st.currentGame.length = 6 →
    addAll st l = st := by
  induction l with
  | nil => intro st _; rfl
  | cons v t ih =>
    intro st h
    show addAll (addNumberToGame st v) t = st
    rw [addNumberToGame_of_complete st v h]
    exact ih st h

lemma addNumberToGame_board (st : State) (v : Int) :
    (addNumberToGame st v).board = st.board := by
  unfold addNumberToGame
  split_ifs <;> rfl

lemma addNumberToGame_subset (st : State) (v : Int) :
    st.currentGame ⊆ (addNumberToGame st v).currentGame := by
  rw [addNumberToGame_currentGame]
  split_ifs
  · exact List.Subset.refl _
  · exact List.subset_append_left _ _

lemma addNumberToGame_length_le (st : State) (v : Int) :
    st.currentGame.length ≤ (addNumberToGame st v).currentGame.length := by
  rw [addNumberToGame_currentGame]
  split_ifs
  · exact le_refl _
  · simp

lemma addNumberToGame_mem (st : State) (v : Int) (h1 : 1 ≤ v) (h60 : v ≤ 60)
    (hlen : st.currentGame.length < 6) : v ∈ (addNumberToGame st v).currentGame := by
  rw [addNumberToGame_currentGame]
  split_ifs with hc
  · rcases hc with hc | hc | hc | hc
    · omega
    · omega
    · exact hc
    · omega
  · exact List.mem_append_right _ (List.mem_singleton_self v)

lemma addAll_props (l : List Int) : ∀ st : State,
    st.currentGame ⊆ (addAll st l).currentGame ∧
      st.currentGame.length ≤ (addAll st l).currentGame.length ∧
      (addAll st l).savedGames = st.savedGames ∧ (addAll st l).board = st.board ∧
      (SelectionOk st.currentGame → SelectionOk (addAll st l).currentGame) := by
  induction l with
  | nil =>
    intro st
    exact ⟨List.Subset.refl _, le_refl _, rfl, rfl, fun h => h⟩
  | cons v t ih =>
    intro st
    obtain ⟨hsub, hle, hsaved, hboard, hok⟩ := ih (addNumberToGame st v)
    refine ⟨?_, ?_, ?_, ?_, ?_⟩
    · exact fun x hx => hsub (addNumberToGame_subset st v hx)
    · exact le_trans (addNumberToGame_length_le st v) hle
    · exact hsaved.trans (addNumberToGame_savedGames st v)
    · exact hboard.trans (addNumberToGame_board st v)
    · exact fun h => hok (SelectionOk_add st v h)

lemma addAll_mem (l : List Int) : ∀ st : State, (addAll st l).currentGame.length < 6 →
    ∀ v ∈ l, 1 ≤ v → v ≤ 60 → v ∈ (addAll st l).currentGame := by
  induction l with
  | nil =>
    intro st _ v hv
    exact absurd hv (List.not_mem_nil v)
  | cons w t ih =>
    intro st hlen v hv h1 h60
    have hprops := addAll_props t (addNumberToGame st w)
    have hlen' : (addAll (addNumberToGame st w) t).currentGame.length < 6 := hlen
    rw [List.mem_cons] at hv
    rcases hv with hv | hv
    · subst hv
      have hshort : st.currentGame.length < 6 :=
        lt_of_le_of_lt (le_trans (addNumberToGame_length_le st v) hprops.2.1) hlen'
      exact hprops.1 (addNumberToGame_mem st v h1 h60 hshort)
    · exact ih (addNumberToGame st w) hlen' v hv h1 h60

lemma randomLoop_eq (random : Nat → ℚ) : ∀ (fuel i : Nat) (st : State),
    randomLoop random fuel i st =
      if (addAll st (drawn random i fuel)).currentGame.length = 6
      then some (addAll st (drawn random i fuel)) else none := by
  intro fuel
  induction fuel with
  | zero =>
    intro i st
    simp [randomLoop, isGameComplete, drawn, addAll]
  | succ fuel ih =>
    intro i st
    by_cases hc : st.currentGame.length = 6
    · rw [addAll_of_complete _ st hc, if_pos hc]
      simp [randomLoop, isGameComplete, hc]
    · have hstep : randomLoop random (fuel + 1) i st
          = randomLoop random fuel (i + 1) (addNumberToGame st (Math.ceil (random i * 60))) := by
        simp [randomLoop, isGameComplete, hc]
      rw [hstep, ih]
      rfl

lemma addAll_complete_of_six (st : State) (l vals : List Int)
    (hok : SelectionOk st.currentGame) (hnd : vals.Nodup) (hlen : vals.length = 6)
    (hv : ∀ v ∈ vals, 1 ≤ v ∧ v ≤ 60 ∧ v ∈ l) :
    (addAll st l).currentGame.length = 6 := by
  have hfinal : SelectionOk (addAll st l).currentGame := (addAll_props l st).2.2.2.2 hok
  by_contra hne
  have hshort : (addAll st l).currentGame.length < 6 := lt_of_le_of_ne hfinal.1 hne
  have hsub : vals ⊆ (addAll st l).currentGame := by
    intro v hmem
    obtain ⟨h1, h60, hl⟩ := hv v hmem
    exact addAll_mem l st hshort v hl h1 h60
  have := (List.subperm_of_subset hnd hsub).length_le
  omega

/-- Whenever the loop of `randomGame` stops, the current game holds six
distinct numbers between 1 and 60 and nothing else of the state has changed. -/
lemma randomGame_result (random : Nat → ℚ) (fuel : Nat) (st st' : State)
    (h : randomGame random fuel st = some st') :
    st'.currentGame.length = 6 ∧ st'.currentGame.Nodup ∧
      (∀ x ∈ st'.currentGame, 1 ≤ x ∧ x ≤ 60) ∧
      st'.savedGames = st.savedGames ∧ st'.board = st.board := by
  unfold randomGame at h
  rw [randomLoop_eq] at h
  split_ifs at h with hlen
  have hst : addAll (resetGame st) (drawn random 0 fuel) = st' := Option.some.inj h
  have hprops := addAll_props (drawn random 0 fuel) (resetGame st)
  have hfinal := hprops.2.2.2.2 SelectionOk_nil
  rw [hst] at hprops hfinal hlen
  exact ⟨hlen, hfinal.2.1, hfinal.2.2, hprops.2.2.1, hprops.2.2.2.1⟩

/-- A draw from an output of the random source strictly between 0 and 1 is a
number between 1 and 60; from any output in `[0, 1)` it is between 0 and 60. -/
lemma draw_range (r : ℚ) (h0 : 0 ≤ r) (h1 : r < 1) :
    0 ≤ Math.ceil (r * 60) ∧ Math.ceil (r * 60) ≤ 60 ∧ (0 < r → 1 ≤ Math.ceil (r * 60)) := by
  unfold Math.ceil
  refine ⟨Int.ceil_nonneg (by positivity), ?_, ?_⟩
  · rw [Int.ceil_le]
    push_cast
    linarith
  · intro hpos
    have : 0 < Int.ceil (r * 60) := Int.ceil_pos.mpr (by positivity)
    omega

/-! ## Claims on the current game -/

/-- C1: starting from an empty current game, after every finite sequence of
`addNumberToGame` and `removeNumberFromGame` calls with arbitrary integers,
`state.currentGame` has at most 6 elements, holds no value twice, and every
element lies between 1 and 60. -/
theorem currentGame_invariant (st : State) (h : st.currentGame = []) (ops : List SelOp) :
    (runSel st ops).currentGame.length ≤ 6 ∧ (runSel st ops).currentGame.Nodup ∧
      ∀ x ∈ (runSel st ops).currentGame, 1 ≤ x ∧ x ≤ 60 :=
  SelectionOk_runSel ops st (h ▸ SelectionOk_nil)

/-- C1 at the initial state with a sequence that tries a repeat, a removal and
an out-of-range value. -/
theorem currentGame_invariant_witness :
    initialState.currentGame = [] ∧
      (runSel initialState
          [SelOp.add 3, SelOp.add 3, SelOp.add 61, SelOp.remove 3, SelOp.add 0,
            SelOp.add 60]).currentGame.length ≤ 6 :=
  ⟨rfl, (currentGame_invariant initialState rfl
    [SelOp.add 3, SelOp.add 3, SelOp.add 61, SelOp.remove 3, SelOp.add 0, SelOp.add 60]).1⟩

/-- C7: `addNumberToGame(v)` leaves the current game unchanged (and the whole
state with it) when `v` is outside 1..60, or already in it, or it already has 6
or more elements; otherwise the current game becomes the old one with `v`
appended at the end, the rest of the state unchanged. -/
theorem addNumberToGame_spec (st : State) (v : Int) :
    ((v < 1 ∨ 60 < v ∨ v ∈ st.currentGame ∨ 6 ≤ st.currentGame.length) →
        addNumberToGame st v = st) ∧
      (¬ (v < 1 ∨ 60 < v ∨ v ∈ st.currentGame ∨ 6 ≤ st.currentGame.length) →
        addNumberToGame st v = { st with currentGame := st.currentGame ++ [v] }) := by
  unfold addNumberToGame isNumberInGame
  constructor
  · intro h
    by_cases h1 : v < 1
    · simp [h1]
    by_cases h2 : 60 < v
    · simp [h2]
    by_cases h3 : v ∈ st.currentGame
    · simp [h3]
    have h4 : 6 ≤ st.currentGame.length := by tauto
    simp [h1, h2, h3, h4]
  · intro h
    simp only [not_or] at h
    obtain ⟨h1, h2, h3, h4⟩ := h
    simp [h1, h2, h3, h4]

/-- C7 at the game `[3, 7]`: 5 is appended, 7 and 61 are ignored. -/
theorem addNumberToGame_spec_witness :
    addNumberToGame ⟨[], [3, 7], []⟩ 5 = ⟨[], [3, 7, 5], []⟩ ∧
      addNumberToGame ⟨[], [3, 7], []⟩ 7 = ⟨[], [3, 7], []⟩ ∧
      addNumberToGame ⟨[], [3, 7], []⟩ 61 = ⟨[], [3, 7], []⟩ :=
  ⟨(addNumberToGame_spec ⟨[], [3, 7], []⟩ 5).2 (by decide),
    (addNumberToGame_spec ⟨[], [3, 7], []⟩ 7).1 (by decide),
    (addNumberToGame_spec ⟨[], [3, 7], []⟩ 61).1 (by decide)⟩

/-- C8: `removeNumberFromGame(v)` leaves the state unchanged when `v` is outside
1..60 or not in the current game; otherwise the new current game no longer
contains `v` and is the old one with the occurrences of `v` deleted: a sublist
of the old one (the relative order is kept) in which every other value occurs
as often as before. -/
theorem removeNumberFromGame_spec (st : State) (v : Int) :
    ((v < 1 ∨ 60 < v ∨ v ∉ st.currentGame) → removeNumberFromGame st v = st) ∧
      (¬ (v < 1 ∨ 60 < v ∨ v ∉ st.currentGame) →
        removeNumberFromGame st v =
            { st with currentGame := st.currentGame.filter (fun n => decide (n ≠ v)) } ∧
          v ∉ (removeNumberFromGame st v).currentGame ∧
          (removeNumberFromGame st v).currentGame.Sublist st.currentGame ∧
          (∀ x, x ≠ v →
            (removeNumberFromGame st v).currentGame.count x = st.currentGame.count x) ∧
          (removeNumberFromGame st v).currentGame.length + st.currentGame.count v
            = st.currentGame.length) := by
  have hfilter : ∀ l : List Int, v ∉ l → l.filter (fun n => decide (n ≠ v)) = l := by
    intro l hl
    rw [List.filter_eq_self]
    intro a ha
    have : a ≠ v := fun hav => hl (hav ▸ ha)
    simpa using this
  constructor
  · intro h
    unfold removeNumberFromGame
    by_cases hr : v < 1 ∨ v > 60
    · simp [hr]
    · have hv : v ∉ st.currentGame := by
        rcases h with h | h | h
        · exact absurd (Or.inl h) hr
        · exact absurd (Or.inr h) hr
        · exact h
      rw [if_neg hr, hfilter _ hv]
  · intro h
    simp only [not_or, not_lt, not_not] at h
    obtain ⟨h1, h2, h3⟩ := h
    have hr : ¬ (v < 1 ∨ v > 60) := by
      intro hc
      rcases hc with hc | hc <;> omega
    have hst : removeNumberFromGame st v =
        { st with currentGame := st.currentGame.filter (fun n => decide (n ≠ v)) } := by
      unfold removeNumberFromGame
      rw [if_neg hr]
    refine ⟨hst, ?_, ?_, ?_, ?_⟩
    · rw [hst]
      simp [List.mem_filter]
    · rw [hst]
      exact List.filter_sublist _
    · intro x hx
      rw [hst]
      simp only []
      rw [List.count_filter]
      simpa using hx
    · rw [hst]
      simp only []
      have hsplit := List.length_eq_length_filter_add (l := st.currentGame)
        (fun n => decide (n ≠ v))
      have hcount : (st.currentGame.filter (fun n => !decide (n ≠ v))).length
          = st.currentGame.count v := by
        rw [List.count, List.countP_eq_length_filter]
        congr 1
        apply List.filter_congr
        intro x _
        by_cases hxv : x = v <;> simp [hxv]
      omega

/-- C8 at the game `[3, 7, 9]`: removing 7 leaves `[3, 9]`, removing 5 or 61
changes nothing. -/
theorem removeNumberFromGame_spec_witness :
    removeNumberFromGame ⟨[], [3, 7, 9], []⟩ 7 = ⟨[], [3, 9], []⟩ ∧
      removeNumberFromGame ⟨[], [3, 7, 9], []⟩ 5 = ⟨[], [3, 7, 9], []⟩ ∧
      removeNumberFromGame ⟨[], [3, 7, 9], []⟩ 61 = ⟨[], [3, 7, 9], []⟩ :=
  ⟨((removeNumberFromGame_spec ⟨[], [3, 7, 9], []⟩ 7).2 (by decide)).1,
    (removeNumberFromGame_spec ⟨[], [3, 7, 9], []⟩ 5).1 (by decide),
    (removeNumberFromGame_spec ⟨[], [3, 7, 9], []⟩ 61).1 (by decide)⟩

/-! ## Claims on `saveGame` -/

/-- C2: starting from no saved game and an empty current game, after every
finite sequence of engine operations (add, remove, number click, new game, save
game, clear saved games; each write to the storage returning or throwing) every
entry of `state.savedGames` is exactly 6 distinct integers between 1 and 60 in
strictly ascending order, and no two entries are equal element by element. -/
theorem savedGames_invariant (st : State) (hcur : st.currentGame = [])
    (hsaved : st.savedGames = []) (ops : List Op) :
    (∀ g ∈ (runOps st ops).savedGames,
        g.length = 6 ∧ g.Nodup ∧ (∀ x ∈ g, 1 ≤ x ∧ x ≤ 60) ∧ g.Sorted (fun a b => a < b)) ∧
      (runOps st ops).savedGames.Pairwise (fun g₁ g₂ => g₁ ≠ g₂) := by
  have hsel : SelectionOk st.currentGame := hcur ▸ SelectionOk_nil
  have hok : SavedOk st.savedGames := by
    rw [hsaved]
    exact ⟨fun g hg => absurd hg (List.not_mem_nil g), List.nodup_nil⟩
  exact (invariant_runOps ops st hsel hok).2

/-- C2 at the initial state: a game is clicked and saved, the same numbers are
entered in another order and saved again, then a second game is saved while the
write throws, and saved once more. -/
theorem savedGames_invariant_witness :
    initialState.currentGame = [] ∧ initialState.savedGames = [] ∧
      (runOps initialState
        [Op.numberClick 5, Op.numberClick 3, Op.numberClick 1, Op.numberClick 6,
          Op.numberClick 4, Op.numberClick 2, Op.saveGame WriteResult.returned,
          Op.addNumber 1, Op.addNumber 2, Op.addNumber 3, Op.addNumber 4,
          Op.addNumber 5, Op.addNumber 6, Op.saveGame WriteResult.returned,
          Op.removeNumber 6, Op.addNumber 60, Op.saveGame WriteResult.threw,
          Op.saveGame WriteResult.returned]).savedGames.Pairwise
        (fun g₁ g₂ => g₁ ≠ g₂) :=
  ⟨rfl, rfl, (savedGames_invariant initialState rfl rfl
    [Op.numberClick 5, Op.numberClick 3, Op.numberClick 1, Op.numberClick 6,
      Op.numberClick 4, Op.numberClick 2, Op.saveGame WriteResult.returned,
      Op.addNumber 1, Op.addNumber 2, Op.addNumber 3, Op.addNumber 4,
      Op.addNumber 5, Op.addNumber 6, Op.saveGame WriteResult.returned,
      Op.removeNumber 6, Op.addNumber 60, Op.saveGame WriteResult.threw,
      Op.saveGame WriteResult.returned]).2⟩

/-- C5: when the current game has fewer than 6 elements, `saveGame` takes the
incomplete-game return and changes nothing: the state after the call is the
state before it (the storage is not written, so how a write would end plays no
part). -/
theorem saveGame_incomplete (st : State) (w : WriteResult)
    (h : st.currentGame.length < 6) :
    saveGame st w = (SaveOutcome.incomplete, st) := by
  rw [saveGame_cases, if_pos (by omega)]

/-- C5 at the current game `[3, 7]`. -/
theorem saveGame_incomplete_witness :
    saveGame ⟨[], [3, 7], [[1, 2, 3, 4, 5, 6]]⟩ WriteResult.threw
      = (SaveOutcome.incomplete, ⟨[], [3, 7], [[1, 2, 3, 4, 5, 6]]⟩) :=
  saveGame_incomplete ⟨[], [3, 7], [[1, 2, 3, 4, 5, 6]]⟩ WriteResult.threw (by decide)

/-- C3 at the current game `[5, 3, 1, 6, 4, 2]` with no saved game, in a host
where `writeToLocalStorage()` throws (no `window.localStorage`): the sorted game
`[1, 2, 3, 4, 5, 6]` is pushed, the exception leaves `saveGame` before
`newGame()`, and the current game is not reset to empty. -/
theorem saveGame_write_threw :
    ([5, 3, 1, 6, 4, 2] : List Int).length = 6 ∧
      sortedGame ⟨[], [5, 3, 1, 6, 4, 2], []⟩ ∉ (⟨[], [5, 3, 1, 6, 4, 2], []⟩ : State).savedGames ∧
      saveGame ⟨[], [5, 3, 1, 6, 4, 2], []⟩ WriteResult.threw
        = (SaveOutcome.writeThrew, ⟨[], [5, 3, 1, 6, 4, 2], [[1, 2, 3, 4, 5, 6]]⟩) ∧
      (saveGame ⟨[], [5, 3, 1, 6, 4, 2], []⟩ WriteResult.threw).2.currentGame ≠ [] := by
  rw [saveGame_cases]
  decide

/-- The saving path of `saveGame` when the write returns: with exactly 6
elements in the current game and no saved game equal to its ascending sort, the
new saved games are the old ones, in the same order, with one entry appended at
the end; that entry is sorted ascending and is a permutation of the old current
game; the current game is reset to empty and the board is untouched. -/
theorem saveGame_saves (st : State) (hlen : st.currentGame.length = 6)
    (hnew : sortedGame st ∉ st.savedGames) :
    (saveGame st WriteResult.returned).1 = SaveOutcome.saved ∧
      (saveGame st WriteResult.returned).2.savedGames = st.savedGames ++ [sortedGame st] ∧
      (sortedGame st).Sorted (fun a b => a ≤ b) ∧
      (sortedGame st).Perm st.currentGame ∧
      (saveGame st WriteResult.returned).2.currentGame = [] ∧
      (saveGame st WriteResult.returned).2.board = st.board := by
  rw [saveGame_cases, if_neg (not_not.mpr hlen), if_neg hnew, if_pos rfl]
  exact ⟨rfl, rfl, sortedGame_sorted st, sortedGame_perm st, rfl, rfl⟩

/-- The saving path at the current game `[5, 3, 1, 6, 4, 2]` with one other game
saved and a write that returns: the entry `[1, 2, 3, 4, 5, 6]` is appended. -/
theorem saveGame_saves_witness :
    (saveGame ⟨[], [5, 3, 1, 6, 4, 2], [[1, 2, 3, 4, 5, 60]]⟩ WriteResult.returned).1
        = SaveOutcome.saved ∧
      (saveGame ⟨[], [5, 3, 1, 6, 4, 2], [[1, 2, 3, 4, 5, 60]]⟩
          WriteResult.returned).2.savedGames
        = [[1, 2, 3, 4, 5, 60], [1, 2, 3, 4, 5, 6]] ∧
      (saveGame ⟨[], [5, 3, 1, 6, 4, 2], [[1, 2, 3, 4, 5, 60]]⟩
          WriteResult.returned).2.currentGame = [] :=
  have h := saveGame_saves ⟨[], [5, 3, 1, 6, 4, 2], [[1, 2, 3, 4, 5, 60]]⟩
    (by decide) (by decide)
  ⟨h.1, h.2.1, h.2.2.2.2.1⟩

/-- C4: for a current game of 6 integers, `saveGame` takes the duplicate return
exactly when some saved game equals the ascending sort of the current game
(two arrays of integers have the same JSON string exactly when they are equal
element by element); when it does, the state is left as it was.  In particular
a second `saveGame` with the same six numbers, entered in any order, is
rejected and changes nothing, and the saved games then hold one copy of the
sorted game when they held none before the first call.  This holds however the
writes to the storage of the two calls end. -/
theorem saveGame_duplicate_iff (st : State) (w w₂ : WriteResult)
    (hlen : st.currentGame.length = 6) :
    ((saveGame st w).1 = SaveOutcome.duplicate ↔ sortedGame st ∈ st.savedGames) ∧
      (∀ g₁ g₂ : List Int, JSON.stringify g₁ = JSON.stringify g₂ ↔ g₁ = g₂) ∧
      ((saveGame st w).1 = SaveOutcome.duplicate → (saveGame st w).2 = st) ∧
      (∀ again : List Int, again.Perm st.currentGame →
        saveGame { (saveGame st w).2 with currentGame := again } w₂
          = (SaveOutcome.duplicate, { (saveGame st w).2 with currentGame := again })) ∧
      (sortedGame st ∉ st.savedGames →
        (saveGame st w).2.savedGames.count (sortedGame st) = 1) := by
  have hne : ¬ st.currentGame.length ≠ 6 := not_not.mpr hlen
  refine ⟨?_, stringify_eq_iff, ?_, ?_, ?_⟩
  · rw [saveGame_cases, if_neg hne]
    split_ifs with hex hw
    · exact ⟨fun _ => hex, fun _ => rfl⟩
    · exact ⟨fun h => absurd h (by decide), fun h => absurd h hex⟩
    · exact ⟨fun h => absurd h (by decide), fun h => absurd h hex⟩
  · rw [saveGame_cases, if_neg hne]
    split_ifs with hex hw
    · intro _; rfl
    · intro h; exact absurd h (by decide)
    · intro h; exact absurd h (by decide)
  · intro again hperm
    have hmem : sortedGame st ∈ (saveGame st w).2.savedGames := by
      rw [saveGame_cases, if_neg hne]
      split_ifs with hex hw
      · exact hex
      · exact List.mem_append_right _ (List.mem_singleton_self _)
      · exact List.mem_append_right _ (List.mem_singleton_self _)
    have hsort : sortedGame { (saveGame st w).2 with currentGame := again } = sortedGame st :=
      sortedGame_congr _ _ hperm
    have hlen' : ¬ ({ (saveGame st w).2 with currentGame := again } : State).currentGame.length
        ≠ 6 := by
      show ¬ again.length ≠ 6
      rw [hperm.length_eq]
      exact hne
    rw [saveGame_cases { (saveGame st w).2 with currentGame := again }, if_neg hlen', hsort,
      if_pos hmem]
  · intro hex
    have hcount : (st.savedGames ++ [sortedGame st]).count (sortedGame st) = 1 := by
      rw [List.count_append, List.count_eq_zero_of_not_mem hex]
      simp
    rw [saveGame_cases, if_neg hne, if_neg hex]
    split_ifs with hw
    · exact hcount
    · exact hcount

/-- C4 at the current game `[5, 3, 1, 6, 4, 2]` with `[1, 2, 3, 4, 5, 6]`
already saved: the call is rejected and the state is unchanged. -/
theorem saveGame_duplicate_iff_witness :
    (saveGame ⟨[], [5, 3, 1, 6, 4, 2], [[1, 2, 3, 4, 5, 6]]⟩ WriteResult.returned).1
        = SaveOutcome.duplicate ∧
      (saveGame ⟨[], [5, 3, 1, 6, 4, 2], [[1, 2, 3, 4, 5, 6]]⟩ WriteResult.returned).2
        = ⟨[], [5, 3, 1, 6, 4, 2], [[1, 2, 3, 4, 5, 6]]⟩ :=
  have h := saveGame_duplicate_iff ⟨[], [5, 3, 1, 6, 4, 2], [[1, 2, 3, 4, 5, 6]]⟩
    WriteResult.returned WriteResult.returned (by decide)
  ⟨h.1.mpr (by decide), h.2.2.1 (h.1.mpr (by decide))⟩

/-! ## Clicking a number twice -/

/-- C10: for a current game (numbers of the board, 1 to 60) with at most 6
elements and no duplicates, and every integer `v`, two clicks on `v` give a
permutation of it, of the same length; the game is exactly as before when `v`
was not in it, and it is the old game with `v` moved to the end when `v` was in
it. -/
theorem click_twice (st : State) (v : Int) (hlen : st.currentGame.length ≤ 6)
    (hnd : st.currentGame.Nodup) (hrange : ∀ x ∈ st.currentGame, 1 ≤ x ∧ x ≤ 60) :
    (handleNumberClick (handleNumberClick st v) v).currentGame.Perm st.currentGame ∧
      (handleNumberClick (handleNumberClick st v) v).currentGame.length
        = st.currentGame.length ∧
      (v ∉ st.currentGame →
        (handleNumberClick (handleNumberClick st v) v).currentGame = st.currentGame) ∧
      (v ∈ st.currentGame →
        (handleNumberClick (handleNumberClick st v) v).currentGame
          = st.currentGame.filter (fun n => decide (n ≠ v)) ++ [v]) :=
  click_twice_of_ok st v ⟨hlen, hnd, hrange⟩

/-- C10 at the game `[3, 7, 9]` and the number 7, which two clicks move to the
end. -/
theorem click_twice_witness :
    ([3, 7, 9] : List Int).length ≤ 6 ∧ ([3, 7, 9] : List Int).Nodup ∧
      (∀ x ∈ ([3, 7, 9] : List Int), 1 ≤ x ∧ x ≤ 60) ∧
      (handleNumberClick (handleNumberClick ⟨[], [3, 7, 9], []⟩ 7) 7).currentGame
        = [3, 9, 7] :=
  ⟨by decide, by decide, by decide,
    (click_twice ⟨[], [3, 7, 9], []⟩ 7 (by decide) (by decide) (by decide)).2.2.2
      (by decide)⟩

/-- The statement of C10 at every state the engine reaches from the initial
state, with no assumption on the current game: there its numbers are numbers of
the board. -/
theorem click_twice_reachable (ops : List Op) (v : Int) :
    (handleNumberClick (handleNumberClick (runOps initialState ops) v) v).currentGame.Perm
        (runOps initialState ops).currentGame ∧
      (v ∉ (runOps initialState ops).currentGame →
        (handleNumberClick (handleNumberClick (runOps initialState ops) v) v).currentGame
          = (runOps initialState ops).currentGame) ∧
      (v ∈ (runOps initialState ops).currentGame →
        (handleNumberClick (handleNumberClick (runOps initialState ops) v) v).currentGame
          = (runOps initialState ops).currentGame.filter (fun n => decide (n ≠ v)) ++ [v]) := by
  have hok : SelectionOk (runOps initialState ops).currentGame :=
    (invariant_runOps ops initialState SelectionOk_nil
      ⟨fun g hg => absurd hg (List.not_mem_nil g), List.nodup_nil⟩).1
  have h := click_twice_of_ok (runOps initialState ops) v hok
  exact ⟨h.1, h.2.2.1, h.2.2.2⟩

/-! ## `randomGame` -/

/-- C6, as stated, fails for the random source that always returns `1/2`:
every draw is 30, the current game never gets past one number, and the loop is
still running after any number of iterations. -/
theorem randomGame_constant_source_never_stops :
    ¬ ∃ fuel : Nat, ∃ st' : State,
      randomGame (fun _ => (1 / 2 : ℚ)) fuel initialState = some st' := by
  rintro ⟨fuel, st', h⟩
  have hdraw : ∀ (n i : Nat), ∀ v ∈ drawn (fun _ => (1 / 2 : ℚ)) i n, v = 30 := by
    intro n
    induction n with
    | zero =>
      intro i v hv
      exact absurd hv (List.not_mem_nil v)
    | succ n ih =>
      intro i v hv
      simp only [drawn, List.mem_cons] at hv
      rcases hv with hv | hv
      · rw [hv]
        unfold Math.ceil
        rw [Int.ceil_eq_iff]
        norm_num
      · exact ih (i + 1) v hv
  have hall : ∀ (l : List Int), (∀ v ∈ l, v = 30) → ∀ st : State,
      (st.currentGame = [] ∨ st.currentGame = [30]) →
      ((addAll st l).currentGame = [] ∨ (addAll st l).currentGame = [30]) := by
    intro l
    induction l with
    | nil => intro _ st hst; exact hst
    | cons w t ih =>
      intro hl st hst
      have hw : w = 30 := hl w (List.mem_cons_self w t)
      apply ih (fun v hv => hl v (List.mem_cons_of_mem w hv)) (addNumberToGame st w)
      rw [addNumberToGame_currentGame, hw]
      rcases hst with hst | hst <;> simp [hst]
  unfold randomGame at h
  rw [randomLoop_eq] at h
  split_ifs at h with hlen
  rcases hall _ (hdraw fuel 0) (resetGame initialState) (Or.inl rfl) with hc | hc
  · rw [hc] at hlen
    simp at hlen
  · rw [hc] at hlen
    simp at hlen

/-- C6 amended: whenever six distinct values of 1..60 occur among the first `N`
draws `Math.ceil(Math.random() * 60)`, the loop of `randomGame` stops within `N`
iterations, whatever the current game held before, and then
`state.currentGame` holds exactly 6 pairwise distinct integers, each between 1
and 60, while the saved games and the board are unchanged. -/
theorem randomGame_stops (random : Nat → ℚ) (N : Nat) (st : State) (vals : List Int)
    (hnd : vals.Nodup) (hlen : vals.length = 6)
    (hv : ∀ v ∈ vals, 1 ≤ v ∧ v ≤ 60 ∧ ∃ i, i < N ∧ Math.ceil (random i * 60) = v) :
    ∃ st' : State, randomGame random N st = some st' ∧
      st'.currentGame.length = 6 ∧ st'.currentGame.Nodup ∧
      (∀ x ∈ st'.currentGame, 1 ≤ x ∧ x ≤ 60) ∧
      st'.savedGames = st.savedGames ∧ st'.board = st.board := by
  have hok : SelectionOk (resetGame st).currentGame := SelectionOk_nil
  have hv' : ∀ v ∈ vals, 1 ≤ v ∧ v ≤ 60 ∧ v ∈ drawn random 0 N := by
    intro v hmem
    obtain ⟨h1, h60, i, hi, hdraw⟩ := hv v hmem
    exact ⟨h1, h60, (mem_drawn random v N 0).mpr ⟨i, Nat.zero_le i, by omega, hdraw⟩⟩
  have hsix := addAll_complete_of_six (resetGame st) (drawn random 0 N) vals hok hnd hlen hv'
  have hprops := addAll_props (drawn random 0 N) (resetGame st)
  have hfinal := hprops.2.2.2.2 hok
  refine ⟨addAll (resetGame st) (drawn random 0 N), ?_, hsix, hfinal.2.1, hfinal.2.2,
    hprops.2.2.1, hprops.2.2.2.1⟩
  unfold randomGame
  rw [randomLoop_eq, if_pos hsix]

/-- C6 amended, at a random source whose first six draws are 1, 2, ..., 6 and a
prior state that holds a partly chosen game and one saved game. -/
theorem randomGame_stops_witness :
    ([1, 2, 3, 4, 5, 6] : List Int).Nodup ∧
      ∃ st' : State,
        randomGame (fun i => (2 * ((i % 60 : Nat) : ℚ) + 1) / 120) 6
            ⟨[], [9, 8], [[1, 2, 3, 4, 5, 6]]⟩ = some st' ∧
          st'.currentGame.length = 6 ∧ st'.currentGame.Nodup ∧
          (∀ x ∈ st'.currentGame, 1 ≤ x ∧ x ≤ 60) ∧
          st'.savedGames = [[1, 2, 3, 4, 5, 6]] ∧ st'.board = [] :=
  ⟨by decide,
    randomGame_stops (fun i => (2 * ((i % 60 : Nat) : ℚ) + 1) / 120) 6
      ⟨[], [9, 8], [[1, 2, 3, 4, 5, 6]]⟩ [1, 2, 3, 4, 5, 6] (by decide) (by decide) (by
        intro v hmem
        simp only [List.mem_cons, List.mem_singleton, List.not_mem_nil, or_false] at hmem
        rcases hmem with rfl | rfl | rfl | rfl | rfl | rfl
        · exact ⟨by norm_num, by norm_num, 0, by norm_num, by
            unfold Math.ceil; rw [Int.ceil_eq_iff]; norm_num⟩
        · exact ⟨by norm_num, by norm_num, 1, by norm_num, by
            unfold Math.ceil; rw [Int.ceil_eq_iff]; norm_num⟩
        · exact ⟨by norm_num, by norm_num, 2, by norm_num, by
            unfold Math.ceil; rw [Int.ceil_eq_iff]; norm_num⟩
        · exact ⟨by norm_num, by norm_num, 3, by norm_num, by
            unfold Math.ceil; rw [Int.ceil_eq_iff]; norm_num⟩
        · exact ⟨by norm_num, by norm_num, 4, by norm_num, by
            unfold Math.ceil; rw [Int.ceil_eq_iff]; norm_num⟩
        · exact ⟨by norm_num, by norm_num, 5, by norm_num, by
            unfold Math.ceil; rw [Int.ceil_eq_iff]; norm_num⟩)⟩

/-- C9 at the output 0 of the random source, which lies in `[0, 1)`: the number
drawn is `Math.ceil(0 * 60) = 0`, below the range 1..60, and `addNumberToGame`
ignores it. -/
theorem randomGame_draw_at_zero :
    (0 : ℚ) ≤ 0 ∧ (0 : ℚ) < 1 ∧ Math.ceil ((0 : ℚ) * 60) = 0 ∧
      ¬ (1 ≤ Math.ceil ((0 : ℚ) * 60) ∧ Math.ceil ((0 : ℚ) * 60) ≤ 60) ∧
      ∀ st : State, addNumberToGame st (Math.ceil ((0 : ℚ) * 60)) = st := by
  have h0 : Math.ceil ((0 : ℚ) * 60) = 0 := by
    unfold Math.ceil
    simp
  refine ⟨le_refl 0, by norm_num, h0, ?_, ?_⟩
  · rw [h0]
    omega
  · intro st
    rw [h0]
    unfold addNumberToGame
    simp

end MegaSena
